import Mathlib

set_option autoImplicit false

/-!
Shallow embedding of `store_server.py`, a Flask + SQLite booking server.

The database state is two tables: `items` (id, amount, name, coordinates, …)
and `bookings` (booking_id, item_id, amount, confirmed).  Tables are modelled
as association lists of (key, row); SQL `UPDATE`/`DELETE ... WHERE` act on all
rows matching the predicate, `SELECT ... fetchone()` and scalar subqueries
take the first matching row, and the row counts reported by sqlite
(`total_changes`) are the number of rows matched by the mutating statements.
-/

namespace StoreServer

/-- A row of the `items` table.  Static columns not read by the core
operations (weight, volume, price, image_url, street_address) are omitted;
`name` is kept for `/items_by_string`, `coordinates` because `/booking`
echoes it as the pickup address. -/
structure Item where
  amount : Int
  name : List Char
  coordinates : String
deriving Repr, DecidableEq

/-- A row of the `bookings` table (minus the key column `booking_id`,
which is the association-list key). -/
structure Booking where
  item_id : Int
  amount : Int
  confirmed : Bool
deriving Repr, DecidableEq

/-- The whole database. -/
structure StoreState where
  items : List (Int × Item)
  bookings : List (Int × Booking)
  next_booking_id : Int
deriving Repr, DecidableEq

/-- Modelled from the spec: `schema.sql` (the column definitions of the
`bookings` table, in particular whether `booking_id` reuses freed rowids) is
not among the sources; per the spec, booking identifiers are opaque positive
integers assigned at creation and unique across the whole history, so fresh
ids are modelled as an ever-increasing counter starting at 1. -/
def freshBookingId (s : StoreState) : Int :=
  s.next_booking_id

/-- `SELECT * FROM items WHERE id = ? ... fetchone()`. -/
def lookupItem (s : StoreState) (item_id : Int) : Option Item :=
  (s.items.find? (fun p => p.1 == item_id)).map Prod.snd

/-- First row of `bookings` with the given `booking_id`. -/
def lookupBooking (s : StoreState) (booking_id : Int) : Option Booking :=
  (s.bookings.find? (fun p => p.1 == booking_id)).map Prod.snd

/-- The row predicate `booking_id = ? AND confirmed = 0` used by
`cancel_booking` (both statements) and `confirm_booking`. -/
def isPendingRow (booking_id : Int) (p : Int × Booking) : Bool :=
  p.1 == booking_id && !p.2.confirmed

/-- `cancel_booking(booking_id)` from the source: one transaction running

* `UPDATE items SET amount = amount + (SELECT amount FROM bookings b WHERE
  b.booking_id = ? AND items.id = b.item_id AND b.confirmed = 0) WHERE id IN
  (SELECT item_id FROM bookings b WHERE b.booking_id = ? AND b.confirmed = 0)`
* `DELETE FROM bookings WHERE booking_id = ? AND confirmed = 0`

and returning `con.total_changes`, the number of rows the two statements
touched. -/
def cancel_booking (booking_id : Int) (s : StoreState) : Nat × StoreState :=
  let hits := s.bookings.filter (isPendingRow booking_id)
  let touched := fun (p : Int × Item) => hits.find? (fun q => q.2.item_id == p.1)
  let items' := s.items.map (fun p =>
    match touched p with
    | some q => (p.1, { p.2 with amount := p.2.amount + q.2.amount })
    | none => p)
  let updCount := (s.items.filter (fun p => (touched p).isSome)).length
  let bookings' := s.bookings.filter (fun p => !(isPendingRow booking_id p))
  (updCount + hits.length,
   { s with items := items', bookings := bookings' })

/-- `check_booking(booking_id)`: the deferred auto-expiry task; after the
delay it just runs `cancel_booking`. -/
def check_booking (booking_id : Int) (s : StoreState) : Nat × StoreState :=
  cancel_booking booking_id s

/-- Outcome of `POST /booking`. -/
inductive BookResult where
  /-- 400 "item_id or quantity not provided" (missing / non-integer input). -/
  | invalidInput : BookResult
  /-- 400 "no such item". -/
  | noSuchItem : BookResult
  /-- 400 "not enough amount". -/
  | insufficientStock : BookResult
  /-- 200, with the new booking id and the item's coordinates as address. -/
  | ok : Int → String → BookResult
deriving Repr, DecidableEq

/-- `make_booking` (`POST /booking`).  `none` inputs model request fields
that are missing or fail `int()` conversion (the `except: abort(400)` path).
On success: `UPDATE items SET amount = amount - ? WHERE id = ?`, then
`INSERT INTO bookings (item_id, amount, confirmed) VALUES (?, ?, 0)`,
returning `cursor.lastrowid` (see `freshBookingId`). -/
def make_booking (itemId? quantity? : Option Int) (s : StoreState) :
    BookResult × StoreState :=
  match itemId?, quantity? with
  | some item_id, some quantity =>
    match lookupItem s item_id with
    | none => (.noSuchItem, s)
    | some it =>
      if it.amount < quantity then (.insufficientStock, s)
      else
        let bid := freshBookingId s
        (.ok bid it.coordinates,
         { items := s.items.map (fun p =>
             if p.1 == item_id then (p.1, { p.2 with amount := p.2.amount - quantity }) else p),
           bookings := s.bookings ++ [(bid, ⟨item_id, quantity, false⟩)],
           next_booking_id := bid + 1 })
  | _, _ => (.invalidInput, s)

/-- `confirm_booking` runs
`UPDATE bookings SET confirmed = 1 WHERE booking_id = ? AND confirmed = 0`
and returns `con.total_changes`. -/
def confirm_booking (booking_id : Int) (s : StoreState) : Nat × StoreState :=
  let n := (s.bookings.filter (isPendingRow booking_id)).length
  (n,
   { s with bookings := s.bookings.map (fun p =>
       if isPendingRow booking_id p then (p.1, { p.2 with confirmed := true }) else p) })

/-- HTTP-level outcome of the cancel / confirm endpoints. -/
inductive ApiResult where
  | success : ApiResult
  /-- 400 "This booking cannot be canceled". -/
  | notCancelable : ApiResult
  /-- 400 "This booking cannot be confirmed". -/
  | notConfirmable : ApiResult
  /-- 400 "booking_id not provided". -/
  | invalidInput : ApiResult
deriving Repr, DecidableEq

/-- `POST /cancel_booking` (`cancel()` in the source): parse `booking_id`,
run `cancel_booking`, succeed iff it reports a positive change count. -/
def cancel (bookingId? : Option Int) (s : StoreState) : ApiResult × StoreState :=
  match bookingId? with
  | none => (.invalidInput, s)
  | some booking_id =>
    let r := cancel_booking booking_id s
    (if r.1 > 0 then .success else .notCancelable, r.2)

/-- `POST /confirm_booking`: parse `booking_id`, run the conditional update,
succeed iff it reports a positive change count. -/
def confirm (bookingId? : Option Int) (s : StoreState) : ApiResult × StoreState :=
  match bookingId? with
  | none => (.invalidInput, s)
  | some booking_id =>
    let r := confirm_booking booking_id s
    (if r.1 > 0 then .success else .notConfirmable, r.2)

/-- The character class kept by
`re.sub('[^a-zA-Z А-Яа-я0-9]+', '', substring)` in `get_everything`:
`a`–`z`, `A`–`Z`, space, `А`–`Я` (U+0410–U+042F), `а`–`я` (U+0430–U+044F),
`0`–`9`. -/
def keptByCode (c : Char) : Bool :=
  (97 ≤ c.toNat && c.toNat ≤ 122) || (65 ≤ c.toNat && c.toNat ≤ 90) ||
  c.toNat == 32 || (1040 ≤ c.toNat && c.toNat ≤ 1071) ||
  (1072 ≤ c.toNat && c.toNat ≤ 1103) || (48 ≤ c.toNat && c.toNat ≤ 57)

/-- The sanitization `get_everything` applies to the query string. -/
def sanitize (q : List Char) : List Char :=
  q.filter keptByCode

/-- SQLite `LIKE` folds ASCII upper case to lower case. -/
def likeFold (c : Char) : Char :=
  if 65 ≤ c.toNat && c.toNat ≤ 90 then Char.ofNat (c.toNat + 32) else c

/-- `pattern` occurs as a contiguous substring of `text`. -/
def containsSub (pattern : List Char) : List Char → Bool
  | [] => pattern.isPrefixOf []
  | c :: rest => pattern.isPrefixOf (c :: rest) || containsSub pattern rest

/-- `name LIKE '%' || pattern || '%'`: ASCII-case-insensitive substring. -/
def likeMatch (name pattern : List Char) : Bool :=
  containsSub (pattern.map likeFold) (name.map likeFold)

/-- `GET /items_by_string` (`get_everything` in the source): sanitize the
query, then `SELECT * FROM items WHERE name LIKE '%' || ? || '%'`. -/
def get_everything (s : StoreState) (query : List Char) : List (Int × Item) :=
  s.items.filter (fun p => likeMatch p.2.name (sanitize query))

/-- One client-visible operation of the reservation core. -/
inductive Op where
  | book : Int → Int → Op
  | cancelReq : Int → Op
  | confirmReq : Int → Op
  | expire : Int → Op
deriving Repr, DecidableEq

/-- The state transition of one operation (discarding the response). -/
def step : Op → StoreState → StoreState
  | .book i q, s => (make_booking (some i) (some q) s).2
  | .cancelReq b, s => (cancel (some b) s).2
  | .confirmReq b, s => (confirm (some b) s).2
  | .expire b, s => (check_booking b s).2

/-- Run a sequence of operations. -/
def runOps : List Op → StoreState → StoreState
  | [], s => s
  | op :: rest, s => runOps rest (step op s)

/-- A freshly initialized database: some items, no bookings. -/
def init (items0 : List (Int × Item)) : StoreState :=
  ⟨items0, [], 1⟩

/-- The available quantity of an item, as reported by a lookup. -/
def itemAmount (s : StoreState) (item_id : Int) : Option Int :=
  (lookupItem s item_id).map Item.amount

/-- Total quantity held for an item by the bookings in a table. -/
def bookedSumL (l : List (Int × Booking)) (item_id : Int) : Int :=
  ((l.filter (fun p => p.2.item_id == item_id)).map (fun p => p.2.amount)).sum

/-- Total quantity held by the bookings currently present for an item
(the `bookings` table holds exactly the pending and confirmed ones;
canceled bookings are deleted). -/
def bookedSum (s : StoreState) (item_id : Int) : Int :=
  bookedSumL s.bookings item_id

/-- Well-formedness of the `bookings` table: `booking_id` is a key (no
duplicates) and every key is below the fresh-id counter. -/
def WF (s : StoreState) : Prop :=
  (s.bookings.map Prod.fst).Nodup ∧ ∀ p ∈ s.bookings, p.1 < s.next_booking_id

/-- The conservation relation between the initial and the current state:
every item's current available amount is its initial amount minus the total
currently booked for it. -/
def Conserves (s0 s : StoreState) : Prop :=
  ∀ i : Int, itemAmount s i = (itemAmount s0 i).map (fun a => a - bookedSum s i)

/-- Item ids are unique, and all item amounts and booking amounts are
non-negative. -/
def NonnegState (s : StoreState) : Prop :=
  (s.items.map Prod.fst).Nodup ∧
  (∀ p ∈ s.items, 0 ≤ p.2.amount) ∧
  (∀ p ∈ s.bookings, 0 ≤ p.2.amount)

/-! ### Claim-side character classes for the search sanitization claim -/

/-- A Latin letter, as named by the claim about query sanitization. -/
def isLatinLetter (c : Char) : Bool :=
  (97 ≤ c.toNat && c.toNat ≤ 122) || (65 ≤ c.toNat && c.toNat ≤ 90)

/-- A Cyrillic letter, as named by the claim: the Unicode Cyrillic block
U+0400–U+04FF (note this is strictly larger than the `А`–`Яа`–`я` ranges the
code keeps: it also holds `Ё`/`ё` and the extended letters). -/
def isCyrillicLetter (c : Char) : Bool :=
  1024 ≤ c.toNat && c.toNat ≤ 1279

/-- A decimal digit. -/
def isDigitChar (c : Char) : Bool :=
  48 ≤ c.toNat && c.toNat ≤ 57

/-- The claim's keep set: Latin letter, Cyrillic letter, digit, or space. -/
def keptByClaim (c : Char) : Bool :=
  isLatinLetter c || isCyrillicLetter c || isDigitChar c || c.toNat == 32

/-- Stripping exactly the characters outside the claim's keep set. -/
def sanitizeClaim (q : List Char) : List Char :=
  q.filter keptByClaim

/-! ### Racing resolutions of one booking -/

/-- The three ways a pending booking can be resolved: a client cancel, a
client confirm, or the scheduler's expiry. -/
inductive Resolution where
  | rcancel : Resolution
  | rconfirm : Resolution
  | rexpire : Resolution
deriving Repr, DecidableEq

/-- The endpoint outcome observed when the booking is already resolved. -/
def failOutcome : Resolution → ApiResult
  | .rcancel => .notCancelable
  | .rconfirm => .notConfirmable
  | .rexpire => .notCancelable

/-- Issue one resolution request for a booking: cancel and confirm through
their endpoints; expiry through the deferred task, its change count read the
same way the cancel endpoint reads it. -/
def applyResolution (booking_id : Int) : Resolution → StoreState → ApiResult × StoreState
  | .rcancel, s => cancel (some booking_id) s
  | .rconfirm, s => confirm (some booking_id) s
  | .rexpire, s =>
      let r := check_booking booking_id s
      (if r.1 > 0 then .success else .notCancelable, r.2)

/-- Apply a sequence of resolution attempts, collecting the outcomes. -/
def runResolutions (booking_id : Int) : List Resolution → StoreState → List ApiResult × StoreState
  | [], s => ([], s)
  | r :: rest, s =>
      let out := applyResolution booking_id r s
      let t := runResolutions booking_id rest out.2
      (out.1 :: t.1, t.2)

/-- The booking has been resolved: deleted from the table (canceled) or
marked confirmed. -/
def Resolved (s : StoreState) (booking_id : Int) : Prop :=
  lookupBooking s booking_id = none ∨
    ∃ bk, lookupBooking s booking_id = some bk ∧ bk.confirmed = true

/-- Every book operation in the sequence requests a positive quantity. -/
def PositiveBookQuantities (ops : List Op) : Prop :=
  ∀ i q, Op.book i q ∈ ops → 0 < q

/-- Booking ids returned by the successful book operations of a run. -/
def bookIds : List Op → StoreState → List Int × StoreState
  | [], s => ([], s)
  | Op.book i q :: rest, s =>
      let r := make_booking (some i) (some q) s
      let t := bookIds rest r.2
      (match r.1 with
       | .ok bid _ => bid :: t.1
       | _ => t.1, t.2)
  | op :: rest, s => bookIds rest (step op s)

/-! ### Concrete fixtures for witnesses and counterexamples -/

/-- A one-item store used to instantiate claims on concrete inputs. -/
def w4s : StoreState :=
  init [(1, ⟨10, ['b', 'i', 'b', 'a'], "123.52;74.81"⟩)]

/-- A one-item store with available amount 10. -/
def w5s : StoreState :=
  init [(1, ⟨10, ['b'], "x"⟩)]

/-- A store holding one item and one pending booking of quantity 3. -/
def w3s : StoreState :=
  ⟨[(1, ⟨7, ['b'], "x"⟩)], [(5, ⟨1, 3, false⟩)], 6⟩

/-- A store holding one item and one confirmed booking. -/
def w7s : StoreState :=
  ⟨[(1, ⟨7, ['b'], "x"⟩)], [(2, ⟨1, 3, true⟩)], 3⟩

/-- The operation sequence refuting the unrestricted non-negativity claim:
book a negative quantity, book out the inflated stock, cancel the negative
booking. -/
def c6ops : List Op :=
  [Op.book 1 (-5), Op.book 1 15, Op.cancelReq 1]

/-! ### Generic association-list lemmas -/

theorem find?_map_of_pred {α : Type} (l : List α) (g : α → α) (pred : α → Bool)
    (hpred : ∀ a, pred (g a) = pred a) :
    (l.map g).find? pred = (l.find? pred).map g := by
  induction l with
  | nil => rfl
  | cons a t ih =>
    simp only [List.map_cons, List.find?]
    rw [hpred a]
    cases h : pred a
    · simpa using ih
    · rfl

theorem find?_filter_of_imp {α : Type} (l : List α) (pred keep : α → Bool)
    (h : ∀ a ∈ l, pred a = true → keep a = true) :
    (l.filter keep).find? pred = l.find? pred := by
  induction l with
  | nil => rfl
  | cons a t ih =>
    have ht : ∀ x ∈ t, pred x = true → keep x = true :=
      fun x hx => h x (List.mem_cons_of_mem a hx)
    cases hk : keep a with
    | true =>
      rw [List.filter_cons_of_pos hk]
      simp only [List.find?]
      cases hp : pred a
      · simpa using ih ht
      · rfl
    | false =>
      have hp : pred a = false := by
        cases hp : pred a
        · rfl
        · exact absurd (h a (List.mem_cons_self a t) hp) (by simp [hk])
      rw [List.filter_cons_of_neg (by simp [hk])]
      simp only [List.find?, hp]
      exact ih ht

theorem find?_key_eq {α : Type} {l : List (Int × α)} {k : Int} {p : Int × α}
    (h : l.find? (fun q => q.1 == k) = some p) : p.1 = k := by
  have := List.find?_some h
  simpa using this

theorem filter_key_of_nodup {α : Type} {l : List (Int × α)} {k : Int} {p : Int × α}
    (hnd : (l.map Prod.fst).Nodup) (h : l.find? (fun q => q.1 == k) = some p) :
    l.filter (fun q => q.1 == k) = [p] := by
  induction l with
  | nil => simp at h
  | cons a t ih =>
    rw [List.map_cons, List.nodup_cons] at hnd
    cases ha : (a.1 == k) with
    | true =>
      have hak : a.1 = k := by simpa using ha
      have hpa : p = a := by
        rw [List.find?_cons_of_pos t ha] at h
        exact (Option.some_inj.mp h).symm
      subst hpa
      rw [List.filter_cons_of_pos (p := fun (q : Int × α) => q.1 == k) ha]
      have : t.filter (fun q => q.1 == k) = [] := by
        rw [List.filter_eq_nil_iff]
        intro q hq hqk
        exact hnd.1 (by
          have : q.1 = k := by simpa using hqk
          rw [hak, ← this]
          exact List.mem_map_of_mem Prod.fst hq)
      rw [this]
    | false =>
      rw [List.find?_cons_of_neg t (by simp [ha])] at h
      rw [List.filter_cons_of_neg (by simp [ha])]
      exact ih hnd.2 h

theorem eq_of_key_mem_of_nodup {α : Type} {l : List (Int × α)} {k : Int} {p q : Int × α}
    (hnd : (l.map Prod.fst).Nodup) (h : l.find? (fun r => r.1 == k) = some p)
    (hq : q ∈ l) (hqk : q.1 = k) : q = p := by
  have : q ∈ l.filter (fun r => r.1 == k) := by
    rw [List.mem_filter]
    exact ⟨hq, by simpa using hqk⟩
  rw [filter_key_of_nodup hnd h] at this
  simpa using this

/-! ### Characterizing the `confirmed = 0` row filter -/

theorem pending_filter_eq_nil_of_none {l : List (Int × Booking)} {bid : Int}
    (h : l.find? (fun q => q.1 == bid) = none) :
    l.filter (isPendingRow bid) = [] := by
  rw [List.filter_eq_nil_iff]
  intro a ha
  have := List.find?_eq_none.mp h a ha
  simp only [isPendingRow]
  simp only [Bool.not_eq_true] at this ⊢
  simp [this]

theorem pending_filter_via_key (l : List (Int × Booking)) (bid : Int) :
    l.filter (isPendingRow bid) =
      (l.filter (fun q => q.1 == bid)).filter (fun q => !q.2.confirmed) := by
  rw [List.filter_filter]
  apply List.filter_congr
  intro x _
  simp [isPendingRow, Bool.and_comm]

theorem pending_filter_eq_nil_of_confirmed {l : List (Int × Booking)} {bid : Int}
    {p : Int × Booking} (hnd : (l.map Prod.fst).Nodup)
    (h : l.find? (fun q => q.1 == bid) = some p) (hc : p.2.confirmed = true) :
    l.filter (isPendingRow bid) = [] := by
  rw [pending_filter_via_key, filter_key_of_nodup hnd h]
  simp [hc]

theorem pending_filter_eq_single {l : List (Int × Booking)} {bid : Int}
    {p : Int × Booking} (hnd : (l.map Prod.fst).Nodup)
    (h : l.find? (fun q => q.1 == bid) = some p) (hc : p.2.confirmed = false) :
    l.filter (isPendingRow bid) = [p] := by
  rw [pending_filter_via_key, filter_key_of_nodup hnd h]
  simp [hc]

/-! ### Characterizations of the mutating operations -/

theorem lookupBooking_eq_some {s : StoreState} {bid : Int} {bk : Booking} :
    lookupBooking s bid = some bk ↔
      s.bookings.find? (fun q => q.1 == bid) = some (bid, bk) := by
  unfold lookupBooking
  constructor
  · intro h
    obtain ⟨p, hp, hsnd⟩ := Option.map_eq_some'.mp h
    have hk := find?_key_eq hp
    obtain ⟨k, b⟩ := p
    simp only at hk hsnd
    rw [hk, hsnd] at hp
    exact hp
  · intro h
    rw [h]
    rfl

theorem lookupBooking_eq_none {s : StoreState} {bid : Int} :
    lookupBooking s bid = none ↔
      s.bookings.find? (fun q => q.1 == bid) = none := by
  unfold lookupBooking
  exact Option.map_eq_none'

theorem cancel_booking_of_nil {bid : Int} {s : StoreState}
    (h : s.bookings.filter (isPendingRow bid) = []) :
    cancel_booking bid s = (0, s) := by
  have hb : s.bookings.filter (fun p => !(isPendingRow bid p)) = s.bookings :=
    List.filter_eq_self.mpr (fun a ha => by
      have := List.filter_eq_nil_iff.mp h a ha
      simpa using this)
  simp only [cancel_booking, h, List.find?_nil, hb, List.length_nil]
  have hmap : s.items.map
      (fun p => match (none : Option (Int × Booking)) with
        | some q => (p.1, { p.2 with amount := p.2.amount + q.2.amount })
        | none => p) = s.items := by
    rw [show (fun (p : Int × Item) => match (none : Option (Int × Booking)) with
        | some q => (p.1, { p.2 with amount := p.2.amount + q.2.amount })
        | none => p) = fun p => p from rfl]
    exact List.map_id' s.items
  rw [hmap]
  have hfilter : s.items.filter
      (fun _ => (none : Option (Int × Booking)).isSome) = [] := by
    simp
  rw [hfilter]
  rfl

theorem cancel_booking_of_single {bid : Int} {s : StoreState} {p : Int × Booking}
    (h : s.bookings.filter (isPendingRow bid) = [p]) :
    cancel_booking bid s =
      ((s.items.filter (fun r => p.2.item_id == r.1)).length + 1,
       { s with
         items := s.items.map (fun r =>
           if p.2.item_id == r.1 then (r.1, { r.2 with amount := r.2.amount + p.2.amount }) else r),
         bookings := s.bookings.filter (fun r => !(isPendingRow bid r)) }) := by
  have htouch : ∀ r : Int × Item,
      List.find? (fun q => q.2.item_id == r.1) [p] =
        if p.2.item_id == r.1 then some p else none := by
    intro r
    by_cases hc : (p.2.item_id == r.1) = true
    · rw [List.find?_cons_of_pos (p := fun (q : Int × Booking) => q.2.item_id == r.1) [] hc,
        if_pos hc]
    · rw [List.find?_cons_of_neg (p := fun (q : Int × Booking) => q.2.item_id == r.1) [] hc,
        List.find?_nil, if_neg hc]
  simp only [cancel_booking, h]
  refine congrArg₂ Prod.mk ?_ ?_
  · have : s.items.filter
        (fun r => (List.find? (fun q => q.2.item_id == r.1) [p]).isSome) =
        s.items.filter (fun r => p.2.item_id == r.1) := by
      apply List.filter_congr
      intro r _
      rw [htouch r]
      by_cases hc : (p.2.item_id == r.1) = true <;> simp [hc]
    rw [this]
    simp
  · congr 1
    apply List.map_congr_left
    intro r _
    rw [htouch r]
    by_cases hc : (p.2.item_id == r.1) = true <;> simp [hc]

theorem confirm_booking_of_nil {bid : Int} {s : StoreState}
    (h : s.bookings.filter (isPendingRow bid) = []) :
    confirm_booking bid s = (0, s) := by
  simp only [confirm_booking, h, List.length_nil]
  have hmap : s.bookings.map
      (fun p => if isPendingRow bid p then (p.1, { p.2 with confirmed := true }) else p)
      = s.bookings := by
    have h2 : ∀ a ∈ s.bookings,
        (if isPendingRow bid a then (a.1, { a.2 with confirmed := true }) else a) = a := by
      intro a ha
      simp [List.filter_eq_nil_iff.mp h a ha]
    rw [List.map_congr_left h2, List.map_id']
  rw [hmap]

theorem confirm_booking_of_single {bid : Int} {s : StoreState} {p : Int × Booking}
    (h : s.bookings.filter (isPendingRow bid) = [p]) :
    confirm_booking bid s =
      (1,
       { s with bookings := s.bookings.map (fun r =>
           if isPendingRow bid r then (r.1, { r.2 with confirmed := true }) else r) }) := by
  simp only [confirm_booking, h]
  rfl

theorem keptByCode_subset_claim {c : Char} (h : keptByCode c = true) :
    keptByClaim c = true := by
  simp only [keptByCode, Bool.or_eq_true, Bool.and_eq_true, decide_eq_true_eq,
    beq_iff_eq] at h
  simp only [keptByClaim, isLatinLetter, isCyrillicLetter, isDigitChar,
    Bool.or_eq_true, Bool.and_eq_true, decide_eq_true_eq, beq_iff_eq]
  omega

theorem sanitize_sanitizeClaim (q : List Char) :
    sanitize (sanitizeClaim q) = sanitize q := by
  unfold sanitize sanitizeClaim
  rw [List.filter_filter]
  apply List.filter_congr
  intro c _
  cases hcode : keptByCode c
  · simp
  · simp [keptByCode_subset_claim hcode]

theorem cancel_booking_bookings (bid : Int) (s : StoreState) :
    ((cancel_booking bid s).2).bookings =
      s.bookings.filter (fun r => !(isPendingRow bid r)) := rfl

theorem cancel_booking_next (bid : Int) (s : StoreState) :
    ((cancel_booking bid s).2).next_booking_id = s.next_booking_id := rfl

theorem confirm_booking_next (bid : Int) (s : StoreState) :
    ((confirm_booking bid s).2).next_booking_id = s.next_booking_id := rfl

theorem confirm_booking_bookings (bid : Int) (s : StoreState) :
    ((confirm_booking bid s).2).bookings = s.bookings.map
      (fun r => if isPendingRow bid r then (r.1, { r.2 with confirmed := true }) else r) := rfl

theorem pending_filter_after_cancel (bid : Int) (s : StoreState) :
    ((cancel_booking bid s).2).bookings.filter (isPendingRow bid) = [] := by
  rw [cancel_booking_bookings, List.filter_filter, List.filter_eq_nil_iff]
  intro a _
  cases h : isPendingRow bid a <;> simp [h]

theorem itemAmount_cancel_single {bid : Int} {s : StoreState} {p : Int × Booking}
    (h : s.bookings.filter (isPendingRow bid) = [p]) :
    itemAmount (cancel_booking bid s).2 p.2.item_id =
      (itemAmount s p.2.item_id).map (fun a => a + p.2.amount) := by
  rw [cancel_booking_of_single h]
  unfold itemAmount lookupItem
  simp only
  rw [find?_map_of_pred]
  · cases hf : s.items.find? (fun q => q.1 == p.2.item_id) with
    | none => rfl
    | some r =>
      have hk : r.1 = p.2.item_id := find?_key_eq hf
      simp only [Option.map_some']
      rw [if_pos (by simpa using hk.symm)]
  · intro a
    by_cases hc : (p.2.item_id == a.1) = true <;> simp [hc]

theorem lookupBooking_after_cancel_self {bid : Int} {s : StoreState} {bk : Booking}
    (hnd : (s.bookings.map Prod.fst).Nodup)
    (hb : lookupBooking s bid = some bk) (hp : bk.confirmed = false) :
    lookupBooking (cancel_booking bid s).2 bid = none := by
  rw [lookupBooking_eq_none, cancel_booking_bookings, List.find?_eq_none]
  intro x hx
  rw [List.mem_filter] at hx
  intro hpred
  have hx1 : x.1 = bid := by simpa using hpred
  have hxeq := eq_of_key_mem_of_nodup hnd (lookupBooking_eq_some.mp hb) hx.1 hx1
  have := hx.2
  rw [hxeq] at this
  simp [isPendingRow, hp] at this

/-! ### Summation lemmas for the bookings table -/

theorem bookedSumL_contrib (l : List (Int × Booking)) (i : Int) :
    bookedSumL l i =
      (l.map (fun p => if p.2.item_id == i then p.2.amount else 0)).sum := by
  induction l with
  | nil => rfl
  | cons a t ih =>
    simp only [bookedSumL, List.filter_cons, List.map_cons, List.sum_cons] at ih ⊢
    by_cases hc : (a.2.item_id == i) = true
    · rw [if_pos hc, if_pos hc]
      simp only [List.map_cons, List.sum_cons]
      rw [ih]
    · rw [if_neg hc, if_neg hc]
      rw [ih]
      omega

theorem bookedSumL_append (l1 l2 : List (Int × Booking)) (i : Int) :
    bookedSumL (l1 ++ l2) i = bookedSumL l1 i + bookedSumL l2 i := by
  simp [bookedSumL, List.filter_append, List.sum_append]

theorem bookedSumL_single (k : Int) (b : Booking) (i : Int) :
    bookedSumL [(k, b)] i = if b.item_id == i then b.amount else 0 := by
  by_cases hc : (b.item_id == i) = true <;> simp [bookedSumL, hc]

theorem sum_map_filter_not {α : Type} (l : List α) (kill : α → Bool) (f : α → Int) :
    ((l.filter kill).map f).sum + ((l.filter (fun a => !kill a)).map f).sum =
      (l.map f).sum := by
  induction l with
  | nil => simp
  | cons a t ih =>
    by_cases hk : kill a = true
    · rw [List.filter_cons_of_pos hk, List.filter_cons_of_neg (by simp [hk])]
      simp only [List.map_cons, List.sum_cons]
      omega
    · rw [List.filter_cons_of_neg hk, List.filter_cons_of_pos (by simp [Bool.not_eq_true] at hk ⊢; exact hk)]
      simp only [List.map_cons, List.sum_cons]
      omega

theorem bookedSumL_filter_split (l : List (Int × Booking)) (kill : Int × Booking → Bool)
    (i : Int) :
    bookedSumL (l.filter (fun a => !kill a)) i =
      bookedSumL l i - bookedSumL (l.filter kill) i := by
  rw [bookedSumL_contrib, bookedSumL_contrib, bookedSumL_contrib]
  have := sum_map_filter_not l kill (fun p => if p.2.item_id == i then p.2.amount else 0)
  omega

theorem bookedSumL_confirm_map (l : List (Int × Booking)) (bid i : Int) :
    bookedSumL (l.map
      (fun r => if isPendingRow bid r then (r.1, { r.2 with confirmed := true }) else r)) i =
      bookedSumL l i := by
  rw [bookedSumL_contrib, bookedSumL_contrib, List.map_map]
  congr 1
  apply List.map_congr_left
  intro a _
  by_cases hi : isPendingRow bid a = true <;> simp [hi]

/-! ### Well-formedness preservation -/

theorem WF_init (items0 : List (Int × Item)) : WF (init items0) := by
  constructor
  · simp [init]
  · intro p hp
    simp [init] at hp

theorem WF_cancel_booking (bid : Int) (s : StoreState) (hwf : WF s) :
    WF (cancel_booking bid s).2 := by
  constructor
  · rw [cancel_booking_bookings]
    exact ((List.filter_sublist _).map Prod.fst).nodup hwf.1
  · intro p hp'
    rw [cancel_booking_bookings] at hp'
    rw [cancel_booking_next]
    exact hwf.2 p (List.mem_of_mem_filter hp')

theorem WF_confirm_booking (bid : Int) (s : StoreState) (hwf : WF s) :
    WF (confirm_booking bid s).2 := by
  have hkey : ∀ a : Int × Booking,
      ((if isPendingRow bid a then (a.1, { a.2 with confirmed := true }) else a) : Int × Booking).1
        = a.1 := by
    intro a
    by_cases hi : isPendingRow bid a = true <;> simp [hi]
  constructor
  · rw [confirm_booking_bookings, List.map_map]
    have : (Prod.fst ∘ fun r =>
        (if isPendingRow bid r then (r.1, { r.2 with confirmed := true }) else r)) = Prod.fst := by
      funext a
      exact hkey a
    rw [this]
    exact hwf.1
  · intro p hp'
    rw [confirm_booking_next]
    rw [confirm_booking_bookings] at hp'
    obtain ⟨x, hx, hxp⟩ := List.mem_map.mp hp'
    have : p.1 = x.1 := by rw [← hxp]; exact hkey x
    rw [this]
    exact hwf.2 x hx

theorem make_booking_noitem {s : StoreState} {i q : Int}
    (hlook : lookupItem s i = none) :
    make_booking (some i) (some q) s = (BookResult.noSuchItem, s) := by
  simp [make_booking, hlook]

theorem make_booking_insufficient {s : StoreState} {i q : Int} {it : Item}
    (hlook : lookupItem s i = some it) (hin : it.amount < q) :
    make_booking (some i) (some q) s = (BookResult.insufficientStock, s) := by
  simp [make_booking, hlook, hin]

theorem make_booking_success {s : StoreState} {i q : Int} {it : Item}
    (hlook : lookupItem s i = some it) (hin : ¬it.amount < q) :
    make_booking (some i) (some q) s =
      (BookResult.ok s.next_booking_id it.coordinates,
       { items := s.items.map (fun p =>
           if p.1 == i then (p.1, { p.2 with amount := p.2.amount - q }) else p),
         bookings := s.bookings ++ [(s.next_booking_id, ⟨i, q, false⟩)],
         next_booking_id := s.next_booking_id + 1 }) := by
  simp [make_booking, hlook, hin, freshBookingId]

theorem WF_make_booking (itemId? quantity? : Option Int) (s : StoreState) (hwf : WF s) :
    WF (make_booking itemId? quantity? s).2 := by
  cases itemId? with
  | none => exact hwf
  | some i =>
    cases quantity? with
    | none => exact hwf
    | some q =>
      cases hlook : lookupItem s i with
      | none =>
        rw [make_booking_noitem hlook]
        exact hwf
      | some it =>
        by_cases hin : it.amount < q
        · rw [make_booking_insufficient hlook hin]
          exact hwf
        · rw [make_booking_success hlook hin]
          constructor
          · simp only [List.map_append, List.map_cons, List.map_nil]
            apply List.Nodup.append hwf.1 (List.nodup_singleton _)
            intro a ha hmem
            rw [List.mem_singleton] at hmem
            subst hmem
            obtain ⟨p, hp, hp1⟩ := List.mem_map.mp ha
            have hlt := hwf.2 p hp
            rw [hp1] at hlt
            exact absurd hlt (lt_irrefl _)
          · intro p hp'
            rcases List.mem_append.mp hp' with h | h
            · have := hwf.2 p h
              show p.1 < s.next_booking_id + 1
              omega
            · rw [List.mem_singleton] at h
              subst h
              show s.next_booking_id < s.next_booking_id + 1
              omega

theorem WF_step (op : Op) (s : StoreState) (hwf : WF s) : WF (step op s) := by
  cases op with
  | book i q => exact WF_make_booking (some i) (some q) s hwf
  | cancelReq b => exact WF_cancel_booking b s hwf
  | confirmReq b => exact WF_confirm_booking b s hwf
  | expire b => exact WF_cancel_booking b s hwf

theorem WF_runOps (ops : List Op) (s : StoreState) (hwf : WF s) : WF (runOps ops s) := by
  induction ops generalizing s with
  | nil => exact hwf
  | cons op rest ih => exact ih (step op s) (WF_step op s hwf)

/-! ### Item-amount transport lemmas -/

theorem lookupItem_eq_some {s : StoreState} {i : Int} {it : Item} :
    lookupItem s i = some it ↔
      s.items.find? (fun q => q.1 == i) = some (i, it) := by
  unfold lookupItem
  constructor
  · intro h
    obtain ⟨p, hp, hsnd⟩ := Option.map_eq_some'.mp h
    have hk := find?_key_eq hp
    obtain ⟨k, b⟩ := p
    simp only at hk hsnd
    rw [hk, hsnd] at hp
    exact hp
  · intro h
    rw [h]
    rfl

theorem find?_key_map {α : Type} (l : List (Int × α)) (g : Int × α → Int × α)
    (hkey : ∀ r, (g r).1 = r.1) (j : Int) :
    (l.map g).find? (fun q => q.1 == j) = (l.find? (fun q => q.1 == j)).map g :=
  find?_map_of_pred l g _ (fun a => by rw [hkey a])

theorem itemAmount_book_self {s : StoreState} {i q : Int} {it : Item}
    (hlook : lookupItem s i = some it) (hin : ¬it.amount < q) :
    itemAmount (make_booking (some i) (some q) s).2 i = some (it.amount - q) := by
  rw [make_booking_success hlook hin]
  have hfind := lookupItem_eq_some.mp hlook
  unfold itemAmount lookupItem
  simp only
  rw [find?_key_map s.items _
    (fun r => by by_cases hc : (r.1 == i) = true <;> simp [hc]) i]
  rw [hfind]
  simp only [Option.map_some']
  rw [if_pos (by simp)]

theorem itemAmount_book_other {s : StoreState} {i q : Int} {it : Item}
    (hlook : lookupItem s i = some it) (hin : ¬it.amount < q) {j : Int} (hj : j ≠ i) :
    itemAmount (make_booking (some i) (some q) s).2 j = itemAmount s j := by
  rw [make_booking_success hlook hin]
  unfold itemAmount lookupItem
  simp only
  rw [find?_key_map s.items _
    (fun r => by by_cases hc : (r.1 == i) = true <;> simp [hc]) j]
  cases hf : s.items.find? (fun r => r.1 == j) with
  | none => rfl
  | some r =>
    have hk : r.1 = j := find?_key_eq hf
    simp only [Option.map_some']
    have : (r.1 == i) = false := by
      rw [hk]
      exact beq_eq_false_iff_ne.mpr hj
    rw [if_neg (by simp [this])]

theorem itemAmount_cancel_other {bid : Int} {s : StoreState} {p : Int × Booking}
    (h : s.bookings.filter (isPendingRow bid) = [p]) {j : Int}
    (hj : j ≠ p.2.item_id) :
    itemAmount (cancel_booking bid s).2 j = itemAmount s j := by
  rw [cancel_booking_of_single h]
  unfold itemAmount lookupItem
  simp only
  rw [find?_key_map s.items _
    (fun r => by by_cases hc : (p.2.item_id == r.1) = true <;> simp [hc]) j]
  cases hf : s.items.find? (fun r => r.1 == j) with
  | none => rfl
  | some r =>
    have hk : r.1 = j := find?_key_eq hf
    simp only [Option.map_some']
    have : (p.2.item_id == r.1) = false := by
      rw [hk]
      exact beq_eq_false_iff_ne.mpr (fun h' => hj h'.symm)
    rw [if_neg (by simp [this])]

/-! ### Conservation of inventory -/

theorem conserves_init (items0 : List (Int × Item)) :
    Conserves (init items0) (init items0) := by
  intro i
  have hz : bookedSum (init items0) i = 0 := rfl
  rw [hz]
  cases itemAmount (init items0) i <;> simp

theorem conserves_cancel (s0 s : StoreState) (b : Int) (hwf : WF s)
    (hP : Conserves s0 s) : Conserves s0 (cancel_booking b s).2 := by
  cases hf : s.bookings.find? (fun q => q.1 == b) with
  | none =>
    rw [cancel_booking_of_nil (pending_filter_eq_nil_of_none hf)]
    exact hP
  | some p =>
    by_cases hc : p.2.confirmed = true
    · rw [cancel_booking_of_nil (pending_filter_eq_nil_of_confirmed hwf.1 hf hc)]
      exact hP
    · have hc' : p.2.confirmed = false := by
        revert hc
        cases p.2.confirmed <;> simp
      have hsingle := pending_filter_eq_single hwf.1 hf hc'
      intro j
      have hsum : bookedSum (cancel_booking b s).2 j =
          bookedSum s j - (if p.2.item_id == j then p.2.amount else 0) := by
        unfold bookedSum
        rw [cancel_booking_bookings]
        rw [bookedSumL_filter_split s.bookings (isPendingRow b) j]
        rw [hsingle, bookedSumL_single]
      by_cases hj : j = p.2.item_id
      · rw [hj] at hsum ⊢
        rw [itemAmount_cancel_single hsingle, hsum, hP p.2.item_id]
        cases ha0 : itemAmount s0 p.2.item_id with
        | none => rfl
        | some a0 =>
          simp only [Option.map_some']
          congr 1
          rw [if_pos (by simp)]
          omega
      · rw [itemAmount_cancel_other hsingle hj, hsum]
        have hbeq : (p.2.item_id == j) = false :=
          beq_eq_false_iff_ne.mpr (fun h' => hj h'.symm)
        rw [if_neg (by simp [hbeq])]
        simp only [sub_zero]
        exact hP j

theorem conserves_step (s0 s : StoreState) (op : Op) (hwf : WF s)
    (hP : Conserves s0 s) : Conserves s0 (step op s) := by
  cases op with
  | book i q =>
    show Conserves s0 (make_booking (some i) (some q) s).2
    cases hlook : lookupItem s i with
    | none =>
      rw [make_booking_noitem hlook]
      exact hP
    | some it =>
      by_cases hin : it.amount < q
      · rw [make_booking_insufficient hlook hin]
        exact hP
      · intro j
        have hsum : bookedSum (make_booking (some i) (some q) s).2 j =
            bookedSum s j + (if i == j then q else 0) := by
          rw [make_booking_success hlook hin]
          unfold bookedSum
          simp only
          rw [bookedSumL_append, bookedSumL_single]
        by_cases hj : j = i
        · subst hj
          rw [itemAmount_book_self hlook hin, hsum]
          have hPj := hP j
          have hsj : itemAmount s j = some it.amount := by
            unfold itemAmount
            rw [hlook]
            rfl
          rw [hsj] at hPj
          cases ha0 : itemAmount s0 j with
          | none =>
            rw [ha0] at hPj
            simp at hPj
          | some a0 =>
            rw [ha0] at hPj
            simp only [Option.map_some'] at hPj
            have hval := Option.some_inj.mp hPj
            simp only [Option.map_some']
            congr 1
            rw [if_pos (by simp)]
            omega
        · rw [itemAmount_book_other hlook hin hj, hsum]
          have hbeq : (i == j) = false :=
            beq_eq_false_iff_ne.mpr (fun h' => hj h'.symm)
          rw [if_neg (by simp [hbeq])]
          simp only [add_zero]
          exact hP j
  | cancelReq b =>
    show Conserves s0 (cancel_booking b s).2
    exact conserves_cancel s0 s b hwf hP
  | confirmReq b =>
    intro j
    have h1 : itemAmount (step (Op.confirmReq b) s) j = itemAmount s j := rfl
    have h2 : bookedSum (step (Op.confirmReq b) s) j = bookedSum s j := by
      show bookedSum (confirm_booking b s).2 j = bookedSum s j
      unfold bookedSum
      rw [confirm_booking_bookings]
      exact bookedSumL_confirm_map s.bookings b j
    rw [h1, h2]
    exact hP j
  | expire b =>
    show Conserves s0 (cancel_booking b s).2
    exact conserves_cancel s0 s b hwf hP

theorem conserves_runOps (ops : List Op) (s0 s : StoreState) (hwf : WF s)
    (hP : Conserves s0 s) : Conserves s0 (runOps ops s) := by
  induction ops generalizing s with
  | nil => exact hP
  | cons op rest ih => exact ih (step op s) (WF_step op s hwf) (conserves_step s0 s op hwf hP)

/-! ### Non-negativity of amounts (under positive booked quantities) -/

theorem nonneg_cancel (s : StoreState) (b : Int) (hwf : WF s) (hN : NonnegState s) :
    NonnegState (cancel_booking b s).2 := by
  cases hf : s.bookings.find? (fun q => q.1 == b) with
  | none =>
    rw [cancel_booking_of_nil (pending_filter_eq_nil_of_none hf)]
    exact hN
  | some p =>
    by_cases hc : p.2.confirmed = true
    · rw [cancel_booking_of_nil (pending_filter_eq_nil_of_confirmed hwf.1 hf hc)]
      exact hN
    · have hc' : p.2.confirmed = false := by
        revert hc
        cases p.2.confirmed <;> simp
      have hsingle := pending_filter_eq_single hwf.1 hf hc'
      have hpmem : p ∈ s.bookings := by
        have : p ∈ s.bookings.filter (isPendingRow b) := by
          rw [hsingle]
          exact List.mem_singleton.mpr rfl
        exact (List.mem_filter.mp this).1
      have hpamt : 0 ≤ p.2.amount := hN.2.2 p hpmem
      rw [cancel_booking_of_single hsingle]
      refine ⟨?_, ?_, ?_⟩
      · show ((s.items.map _).map Prod.fst).Nodup
        rw [List.map_map]
        have : (Prod.fst ∘ fun (r : Int × Item) =>
            if p.2.item_id == r.1 then (r.1, { r.2 with amount := r.2.amount + p.2.amount })
            else r) = Prod.fst := by
          funext r
          show (if p.2.item_id == r.1 then
            (r.1, { r.2 with amount := r.2.amount + p.2.amount }) else r).1 = r.1
          split <;> rfl
        rw [this]
        exact hN.1
      · intro r' hr'
        obtain ⟨x, hx, hxr⟩ := List.mem_map.mp hr'
        rw [← hxr]
        have hxamt := hN.2.1 x hx
        by_cases hco : (p.2.item_id == x.1) = true
        · rw [if_pos hco]
          simp only
          omega
        · rw [if_neg hco]
          exact hxamt
      · intro b' hb'
        exact hN.2.2 b' (List.mem_of_mem_filter hb')

theorem nonneg_step (s : StoreState) (op : Op) (hwf : WF s) (hN : NonnegState s)
    (hq : ∀ i q, op = Op.book i q → 0 < q) : NonnegState (step op s) := by
  cases op with
  | book i q =>
    have hq' : 0 < q := hq i q rfl
    show NonnegState (make_booking (some i) (some q) s).2
    cases hlook : lookupItem s i with
    | none =>
      rw [make_booking_noitem hlook]
      exact hN
    | some it =>
      by_cases hin : it.amount < q
      · rw [make_booking_insufficient hlook hin]
        exact hN
      · rw [make_booking_success hlook hin]
        have hfind := lookupItem_eq_some.mp hlook
        refine ⟨?_, ?_, ?_⟩
        · show ((s.items.map _).map Prod.fst).Nodup
          rw [List.map_map]
          have : (Prod.fst ∘ fun (r : Int × Item) =>
              if r.1 == i then (r.1, { r.2 with amount := r.2.amount - q }) else r)
                = Prod.fst := by
            funext r
            show (if r.1 == i then
              (r.1, { r.2 with amount := r.2.amount - q }) else r).1 = r.1
            split <;> rfl
          rw [this]
          exact hN.1
        · intro r' hr'
          obtain ⟨x, hx, hxr⟩ := List.mem_map.mp hr'
          rw [← hxr]
          by_cases hco : (x.1 == i) = true
          · have hx1 : x.1 = i := by simpa using hco
            have hxeq := eq_of_key_mem_of_nodup hN.1 hfind hx hx1
            rw [if_pos hco, hxeq]
            simp only
            omega
          · rw [if_neg hco]
            exact hN.2.1 x hx
        · intro b' hb'
          rcases List.mem_append.mp hb' with h | h
          · exact hN.2.2 b' h
          · rw [List.mem_singleton] at h
            subst h
            show (0 : Int) ≤ q
            omega
  | cancelReq b => exact nonneg_cancel s b hwf hN
  | confirmReq b =>
    refine ⟨hN.1, hN.2.1, ?_⟩
    intro b' hb'
    show (0 : Int) ≤ b'.2.amount
    replace hb' : b' ∈ ((confirm_booking b s).2).bookings := hb'
    rw [confirm_booking_bookings] at hb'
    obtain ⟨x, hx, hxb⟩ := List.mem_map.mp hb'
    rw [← hxb]
    have := hN.2.2 x hx
    by_cases hco : isPendingRow b x = true
    · rw [if_pos hco]
      exact this
    · rw [if_neg hco]
      exact this
  | expire b => exact nonneg_cancel s b hwf hN

theorem nonneg_runOps (ops : List Op) (s : StoreState) (hwf : WF s)
    (hN : NonnegState s) (hq : PositiveBookQuantities ops) :
    NonnegState (runOps ops s) := by
  induction ops generalizing s with
  | nil => exact hN
  | cons op rest ih =>
    have hqh : ∀ i q, op = Op.book i q → 0 < q := by
      intro i q h
      exact hq i q (by rw [← h]; exact List.mem_cons_self op rest)
    have hqt : PositiveBookQuantities rest := by
      intro i q h
      exact hq i q (List.mem_cons_of_mem op h)
    exact ih (step op s) (WF_step op s hwf) (nonneg_step s op hwf hN hqh) hqt

/-! ### Claim theorems -/

/-- C1: conservation. After any sequence of book, cancel, confirm, and
expire operations on a fresh database, every item's available amount plus
the total quantity of the bookings still present for it (the pending and
confirmed ones — canceled bookings are deleted) equals its original
allocation. -/
theorem conservation_invariant (ops : List Op) (items0 : List (Int × Item)) (i : Int) :
    (itemAmount (runOps ops (init items0)) i).map
        (fun a => a + bookedSum (runOps ops (init items0)) i) =
      itemAmount (init items0) i := by
  have h := conserves_runOps ops (init items0) (init items0) (WF_init items0)
    (conserves_init items0) i
  cases ha0 : itemAmount (init items0) i with
  | none =>
    rw [ha0] at h
    simp only [Option.map_none'] at h
    rw [h]
    rfl
  | some a0 =>
    rw [ha0] at h
    simp only [Option.map_some'] at h
    rw [h]
    simp only [Option.map_some']
    congr 1
    omega

/-- C8: confirm never modifies any item's available quantity, whether it
succeeds, fails, or the request is malformed: both the `/confirm_booking`
endpoint and the underlying conditional `UPDATE` leave the `items` table
untouched. -/
theorem confirm_frame_items :
    ∀ (bookingId? : Option Int) (bid : Int) (s : StoreState),
      ((confirm bookingId? s).2).items = s.items ∧
      ((confirm_booking bid s).2).items = s.items := by
  intro bookingId? bid s
  refine ⟨?_, rfl⟩
  cases bookingId? with
  | none => rfl
  | some b => rfl

/-- C4: booking quantity `q` on an existing item with available amount `a`
fails with `InsufficientStock` when `a < q`, leaving the state unchanged;
booking on a non-existent item fails with `NoSuchItem`, also with no state
change. -/
theorem book_no_over_reservation :
    (∀ (s : StoreState) (i q : Int) (it : Item), lookupItem s i = some it →
      it.amount < q → make_booking (some i) (some q) s = (.insufficientStock, s)) ∧
    (∀ (s : StoreState) (i q : Int), lookupItem s i = none →
      make_booking (some i) (some q) s = (.noSuchItem, s)) := by
  constructor
  · intro s i q it h hq
    simp [make_booking, h, hq]
  · intro s i q h
    simp [make_booking, h]

theorem book_no_over_reservation_witness :
    make_booking (some 1) (some 11) w4s = (.insufficientStock, w4s) ∧
    make_booking (some 2) (some 1) w4s = (.noSuchItem, w4s) :=
  ⟨book_no_over_reservation.1 w4s 1 11 ⟨10, ['b', 'i', 'b', 'a'], "123.52;74.81"⟩
      rfl (by decide),
   book_no_over_reservation.2 w4s 2 1 rfl⟩

/-- C5 (code bug evidence): `make_booking` performs no `quantity > 0`
validation.  On an item with available amount 10, a request with
`quantity = -5` is accepted — a booking is created and the available amount
*increases* to 15 — where the claim requires an `InvalidInput` rejection
with no state change. -/
theorem book_accepts_nonpositive_quantity :
    (make_booking (some 1) (some (-5)) w5s).1 = BookResult.ok 1 "x" ∧
    itemAmount (make_booking (some 1) (some (-5)) w5s).2 1 = some 15 ∧
    (make_booking (some 1) (some 0) w5s).1 = BookResult.ok 1 "x" := by
  refine ⟨rfl, rfl, rfl⟩

/-- C10: the search endpoint's sanitization strips every character outside
the claim's keep set (Latin letter, Cyrillic letter, digit, space), so any
two queries that agree after stripping to that keep set produce identical
search results. -/
theorem search_query_sanitization :
    (∀ c : Char, keptByClaim c = false → keptByCode c = false) ∧
    (∀ (s : StoreState) (q1 q2 : List Char), sanitizeClaim q1 = sanitizeClaim q2 →
      get_everything s q1 = get_everything s q2) := by
  constructor
  · intro c h
    cases hcode : keptByCode c
    · rfl
    · rw [keptByCode_subset_claim hcode] at h
      exact absurd h (by simp)
  · intro s q1 q2 h
    unfold get_everything
    have : sanitize q1 = sanitize q2 := by
      rw [← sanitize_sanitizeClaim q1, ← sanitize_sanitizeClaim q2, h]
    rw [this]

theorem search_query_sanitization_witness :
    keptByCode (Char.ofNat 33) = false ∧
    get_everything w4s ['b', '!'] = get_everything w4s ['b', '?'] :=
  ⟨search_query_sanitization.1 (Char.ofNat 33) (by decide),
   search_query_sanitization.2 w4s ['b', '!'] ['b', '?'] (by decide)⟩

/-- C3: for an existing pending booking, the first cancel succeeds and adds
the booked quantity back to the item's available amount; a second cancel of
the same booking changes nothing and reports `NotCancelable` — the quantity
is released exactly once. -/
theorem cancel_idempotent_release (s : StoreState) (bid : Int) (bk : Booking)
    (hwf : WF s) (hb : lookupBooking s bid = some bk) (hp : bk.confirmed = false) :
    cancel (some bid) s = (ApiResult.success, (cancel_booking bid s).2) ∧
    itemAmount (cancel_booking bid s).2 bk.item_id =
      (itemAmount s bk.item_id).map (fun a => a + bk.amount) ∧
    cancel (some bid) (cancel_booking bid s).2 =
      (ApiResult.notCancelable, (cancel_booking bid s).2) := by
  have hfind := lookupBooking_eq_some.mp hb
  have hsingle := pending_filter_eq_single hwf.1 hfind hp
  refine ⟨?_, ?_, ?_⟩
  · simp [cancel, cancel_booking_of_single hsingle]
  · exact itemAmount_cancel_single hsingle
  · have h2 := cancel_booking_of_nil (pending_filter_after_cancel bid s)
    simp [cancel, h2]

theorem cancel_idempotent_release_witness :
    cancel (some 5) w3s = (ApiResult.success, (cancel_booking 5 w3s).2) ∧
    itemAmount (cancel_booking 5 w3s).2 1 = (itemAmount w3s 1).map (fun a => a + 3) ∧
    cancel (some 5) (cancel_booking 5 w3s).2 =
      (ApiResult.notCancelable, (cancel_booking 5 w3s).2) :=
  cancel_idempotent_release w3s 5 ⟨1, 3, false⟩ ⟨by decide, by decide⟩ rfl rfl

/-- C7: a confirmed booking is terminal.  No cancel, confirm, or expiry —
with any booking-id argument — changes its stored record, and cancel/confirm
directed at it report `NotCancelable`/`NotConfirmable` with the whole state
unchanged. -/
theorem confirmed_is_terminal (s : StoreState) (b : Int) (bk : Booking)
    (hwf : WF s) (hb : lookupBooking s b = some bk) (hc : bk.confirmed = true) :
    (∀ k : Int,
      lookupBooking (cancel_booking k s).2 b = some bk ∧
      lookupBooking (confirm_booking k s).2 b = some bk ∧
      lookupBooking (check_booking k s).2 b = some bk) ∧
    cancel (some b) s = (ApiResult.notCancelable, s) ∧
    confirm (some b) s = (ApiResult.notConfirmable, s) := by
  have hfind := lookupBooking_eq_some.mp hb
  have hnil := pending_filter_eq_nil_of_confirmed hwf.1 hfind hc
  have hcancel : ∀ k : Int, lookupBooking (cancel_booking k s).2 b = some bk := by
    intro k
    rw [lookupBooking_eq_some, cancel_booking_bookings]
    rw [find?_filter_of_imp]
    · exact hfind
    · intro a ha hpred
      have ha1 : a.1 = b := by simpa using hpred
      have haeq := eq_of_key_mem_of_nodup hwf.1 hfind ha ha1
      rw [haeq]
      simp [isPendingRow, hc]
  have hconfirm : ∀ k : Int, lookupBooking (confirm_booking k s).2 b = some bk := by
    intro k
    rw [lookupBooking_eq_some, confirm_booking_bookings]
    rw [find?_map_of_pred]
    · rw [hfind]
      simp [isPendingRow, hc]
    · intro a
      by_cases hi : isPendingRow k a = true <;> simp [hi]
  refine ⟨fun k => ⟨hcancel k, hconfirm k, hcancel k⟩, ?_, ?_⟩
  · simp [cancel, cancel_booking_of_nil hnil]
  · simp [confirm, confirm_booking_of_nil hnil]

theorem failOutcome_ne_success (r : Resolution) : failOutcome r ≠ ApiResult.success := by
  cases r <;> simp [failOutcome]

theorem resolved_applyResolution {s : StoreState} {bid : Int}
    (hwf : WF s) (hres : Resolved s bid) (r : Resolution) :
    applyResolution bid r s = (failOutcome r, s) := by
  have hnil : s.bookings.filter (isPendingRow bid) = [] := by
    cases hres with
    | inl h => exact pending_filter_eq_nil_of_none (lookupBooking_eq_none.mp h)
    | inr h =>
      obtain ⟨bk, hb, hc⟩ := h
      exact pending_filter_eq_nil_of_confirmed hwf.1 (lookupBooking_eq_some.mp hb) hc
  cases r with
  | rcancel => simp [applyResolution, cancel, cancel_booking_of_nil hnil, failOutcome]
  | rconfirm => simp [applyResolution, confirm, confirm_booking_of_nil hnil, failOutcome]
  | rexpire => simp [applyResolution, check_booking, cancel_booking_of_nil hnil, failOutcome]

theorem pending_applyResolution {s : StoreState} {bid : Int} {bk : Booking}
    (hwf : WF s) (hb : lookupBooking s bid = some bk) (hp : bk.confirmed = false)
    (r : Resolution) :
    (applyResolution bid r s).1 = ApiResult.success ∧
    WF (applyResolution bid r s).2 ∧ Resolved (applyResolution bid r s).2 bid := by
  have hfind := lookupBooking_eq_some.mp hb
  have hsingle := pending_filter_eq_single hwf.1 hfind hp
  have hcount : 0 < (cancel_booking bid s).1 := by
    rw [cancel_booking_of_single hsingle]
    exact Nat.succ_pos _
  have hwf_cancel : WF (cancel_booking bid s).2 := by
    constructor
    · rw [cancel_booking_bookings]
      exact ((List.filter_sublist _).map Prod.fst).nodup hwf.1
    · intro p hp'
      rw [cancel_booking_bookings] at hp'
      rw [cancel_booking_next]
      exact hwf.2 p (List.mem_of_mem_filter hp')
  have hres_cancel : Resolved (cancel_booking bid s).2 bid :=
    Or.inl (lookupBooking_after_cancel_self hwf.1 hb hp)
  cases r with
  | rcancel =>
    refine ⟨?_, hwf_cancel, hres_cancel⟩
    show (if 0 < (cancel_booking bid s).1 then ApiResult.success else ApiResult.notCancelable)
      = ApiResult.success
    rw [if_pos hcount]
  | rexpire =>
    refine ⟨?_, hwf_cancel, hres_cancel⟩
    show (if 0 < (cancel_booking bid s).1 then ApiResult.success else ApiResult.notCancelable)
      = ApiResult.success
    rw [if_pos hcount]
  | rconfirm =>
    have hkey : ∀ a : Int × Booking,
        ((if isPendingRow bid a then (a.1, { a.2 with confirmed := true }) else a) : Int × Booking).1
          = a.1 := by
      intro a
      by_cases hi : isPendingRow bid a = true <;> simp [hi]
    refine ⟨?_, ⟨?_, ?_⟩, ?_⟩
    · show (if 0 < (confirm_booking bid s).1 then ApiResult.success else ApiResult.notConfirmable)
        = ApiResult.success
      rw [confirm_booking_of_single hsingle]
      rfl
    · show (((confirm_booking bid s).2).bookings.map Prod.fst).Nodup
      rw [confirm_booking_bookings, List.map_map]
      have : (Prod.fst ∘ fun r =>
          (if isPendingRow bid r then (r.1, { r.2 with confirmed := true }) else r)) = Prod.fst := by
        funext a
        exact hkey a
      rw [this]
      exact hwf.1
    · intro p hp'
      replace hp' : p ∈ ((confirm_booking bid s).2).bookings := hp'
      show p.1 < ((confirm_booking bid s).2).next_booking_id
      rw [confirm_booking_next]
      rw [confirm_booking_bookings] at hp'
      obtain ⟨x, hx, hxp⟩ := List.mem_map.mp hp'
      have : p.1 = x.1 := by rw [← hxp]; exact hkey x
      rw [this]
      exact hwf.2 x hx
    · refine Or.inr ⟨{ bk with confirmed := true }, ?_, rfl⟩
      show lookupBooking ((confirm_booking bid s).2) bid =
        some { bk with confirmed := true }
      rw [lookupBooking_eq_some, confirm_booking_bookings]
      rw [find?_map_of_pred]
      · rw [hfind]
        simp [isPendingRow, hp]
      · intro a
        by_cases hi : isPendingRow bid a = true <;> simp [hi]

theorem runResolutions_resolved {s : StoreState} {bid : Int}
    (hwf : WF s) (hres : Resolved s bid) (l : List Resolution) :
    runResolutions bid l s = (l.map failOutcome, s) := by
  induction l with
  | nil => rfl
  | cons r rest ih =>
    simp only [runResolutions, resolved_applyResolution hwf hres r, List.map_cons]
    rw [ih]

theorem confirmed_is_terminal_witness :
    lookupBooking (cancel_booking 2 w7s).2 2 = some ⟨1, 3, true⟩ ∧
    lookupBooking (confirm_booking 9 w7s).2 2 = some ⟨1, 3, true⟩ ∧
    cancel (some 2) w7s = (ApiResult.notCancelable, w7s) ∧
    confirm (some 2) w7s = (ApiResult.notConfirmable, w7s) := by
  have h := confirmed_is_terminal w7s 2 ⟨1, 3, true⟩ ⟨by decide, by decide⟩ rfl rfl
  exact ⟨(h.1 2).1, (h.1 9).2.1, h.2.1, h.2.2⟩

/-- C2: when cancel, confirm, and expiry are each issued exactly once for a
pending booking, in any arrival order, exactly one of the three outcomes is
a success and every other outcome is `NotCancelable`/`NotConfirmable`. -/
theorem single_resolution (s : StoreState) (bid : Int) (bk : Booking)
    (l : List Resolution) (hwf : WF s) (hb : lookupBooking s bid = some bk)
    (hp : bk.confirmed = false)
    (hl : l.Perm [Resolution.rcancel, Resolution.rconfirm, Resolution.rexpire]) :
    (runResolutions bid l s).1.count ApiResult.success = 1 ∧
    (runResolutions bid l s).1.length = 3 ∧
    ∀ o ∈ (runResolutions bid l s).1,
      o = ApiResult.success ∨ o = ApiResult.notCancelable ∨
        o = ApiResult.notConfirmable := by
  have hlen := hl.length_eq
  cases l with
  | nil => simp at hlen
  | cons r rest =>
    have happ := pending_applyResolution hwf hb hp r
    have hrun := runResolutions_resolved happ.2.1 happ.2.2 rest
    have houts : (runResolutions bid (r :: rest) s).1 =
        ApiResult.success :: rest.map failOutcome := by
      simp only [runResolutions]
      rw [happ.1, hrun]
    rw [houts]
    refine ⟨?_, ?_, ?_⟩
    · have hzero : (rest.map failOutcome).count ApiResult.success = 0 := by
        rw [List.count_eq_zero]
        intro hmem
        obtain ⟨r', _, hr'⟩ := List.mem_map.mp hmem
        exact failOutcome_ne_success r' hr'
      simp [List.count_cons, hzero]
    · simp only [List.length_cons, List.length_map]
      simp only [List.length_cons, List.length_nil] at hlen
      omega
    · intro o ho
      rcases List.mem_cons.mp ho with h | h
      · exact Or.inl h
      · obtain ⟨r', _, hr'⟩ := List.mem_map.mp h
        rw [← hr']
        cases r' <;> simp [failOutcome]

/-- C6 counterexample: the operations are code-accepted with arbitrary
integer inputs (no quantity validation exists), and the sequence
book(1, -5); book(1, 15); cancel(1) on an item allocated 10 drives its
available amount to -5, refuting "the available quantity is never
negative" as stated. -/
theorem negative_available_reachable :
    itemAmount (runOps c6ops w5s) 1 = some (-5) ∧ (-5 : Int) < 0 :=
  ⟨rfl, by decide⟩

/-- C6 (amended): for every item of a fresh database with unique item ids
and non-negative initial amounts, after any sequence of operations whose
book requests all carry positive quantities, the item's available amount is
never negative. -/
theorem nonneg_available (ops : List Op) (items0 : List (Int × Item))
    (hnd : (items0.map Prod.fst).Nodup)
    (h0 : ∀ p ∈ items0, 0 ≤ p.2.amount)
    (hq : PositiveBookQuantities ops) (i a : Int)
    (ha : itemAmount (runOps ops (init items0)) i = some a) : 0 ≤ a := by
  have hN0 : NonnegState (init items0) := by
    refine ⟨hnd, h0, ?_⟩
    intro p hp
    simp [init] at hp
  have hfin := nonneg_runOps ops (init items0) (WF_init items0) hN0 hq
  unfold itemAmount at ha
  obtain ⟨it, hit, hamt⟩ := Option.map_eq_some'.mp ha
  unfold lookupItem at hit
  obtain ⟨pr, hpr, hsnd⟩ := Option.map_eq_some'.mp hit
  have hmem := List.mem_of_find?_eq_some hpr
  have := hfin.2.1 pr hmem
  rw [hsnd, hamt] at this
  exact this

theorem nonneg_available_witness : (0 : Int) ≤ 2 :=
  nonneg_available [Op.book 1 8] [(1, ⟨10, ['b'], "x"⟩)] (by decide) (by decide)
    (by
      intro i q h
      rw [List.mem_singleton] at h
      injection h with h1 h2
      omega)
    1 2 rfl

theorem make_booking_shape (i q : Int) (s : StoreState) :
    ((make_booking (some i) (some q) s).2 = s ∧
      ∀ bid addr, (make_booking (some i) (some q) s).1 ≠ BookResult.ok bid addr) ∨
    (∃ addr, (make_booking (some i) (some q) s).1 = BookResult.ok s.next_booking_id addr ∧
      ((make_booking (some i) (some q) s).2).next_booking_id = s.next_booking_id + 1) := by
  cases hlook : lookupItem s i with
  | none =>
    left
    rw [make_booking_noitem hlook]
    exact ⟨rfl, fun bid addr h => BookResult.noConfusion h⟩
  | some it =>
    by_cases hin : it.amount < q
    · left
      rw [make_booking_insufficient hlook hin]
      exact ⟨rfl, fun bid addr h => BookResult.noConfusion h⟩
    · right
      refine ⟨it.coordinates, ?_, ?_⟩
      · rw [make_booking_success hlook hin]
      · rw [make_booking_success hlook hin]

theorem bookIds_book_fail {i q : Int} {s : StoreState} (rest : List Op)
    (h : ∀ bid addr, (make_booking (some i) (some q) s).1 ≠ BookResult.ok bid addr) :
    bookIds (Op.book i q :: rest) s = bookIds rest (make_booking (some i) (some q) s).2 := by
  simp only [bookIds]

theorem bookIds_book_ok {i q bid : Int} {addr : String} {s : StoreState} (rest : List Op)
    (h : (make_booking (some i) (some q) s).1 = BookResult.ok bid addr) :
    bookIds (Op.book i q :: rest) s =
      (bid :: (bookIds rest (make_booking (some i) (some q) s).2).1,
       (bookIds rest (make_booking (some i) (some q) s).2).2) := by
  simp only [bookIds, h]

theorem bookIds_bounds (ops : List Op) (s : StoreState) :
    (∀ id ∈ (bookIds ops s).1, s.next_booking_id ≤ id) ∧
    (bookIds ops s).1.Pairwise (· < ·) := by
  induction ops generalizing s with
  | nil =>
    constructor
    · intro id h
      simp [bookIds] at h
    · simp [bookIds]
  | cons op rest ih =>
    cases op with
    | book i q =>
      rcases make_booking_shape i q s with ⟨h2, h1⟩ | ⟨addr, h1, h2⟩
      · rw [bookIds_book_fail rest h1, h2]
        exact ih s
      · rw [bookIds_book_ok rest h1]
        have iha := ih (make_booking (some i) (some q) s).2
        constructor
        · intro id hid
          rcases List.mem_cons.mp hid with h | h
          · omega
          · have := iha.1 id h
            rw [h2] at this
            omega
        · refine List.pairwise_cons.mpr ⟨?_, iha.2⟩
          intro a ha
          have := iha.1 a ha
          rw [h2] at this
          omega
    | cancelReq b => exact ih (step (Op.cancelReq b) s)
    | confirmReq b => exact ih (step (Op.confirmReq b) s)
    | expire b => exact ih (step (Op.expire b) s)

/-- C9 (booking-id assignment modelled from the spec, `schema.sql` being
absent from the sources): every successful book returns a fresh positive
identifier, distinct from every identifier returned earlier in the run —
including those of bookings since canceled and deleted. -/
theorem booking_ids_unique (ops : List Op) (items0 : List (Int × Item)) :
    (bookIds ops (init items0)).1.Nodup ∧
    ∀ id ∈ (bookIds ops (init items0)).1, 0 < id := by
  have h := bookIds_bounds ops (init items0)
  constructor
  · exact List.Pairwise.imp (fun hab => ne_of_lt hab) h.2
  · intro id hid
    have h1 : (1 : Int) ≤ id := h.1 id hid
    omega

theorem single_resolution_witness :
    (runResolutions 5 [Resolution.rcancel, Resolution.rconfirm, Resolution.rexpire]
      w3s).1.count ApiResult.success = 1 ∧
    (runResolutions 5 [Resolution.rcancel, Resolution.rconfirm, Resolution.rexpire]
      w3s).1.length = 3 ∧
    ∀ o ∈ (runResolutions 5 [Resolution.rcancel, Resolution.rconfirm, Resolution.rexpire]
      w3s).1,
      o = ApiResult.success ∨ o = ApiResult.notCancelable ∨
        o = ApiResult.notConfirmable :=
  single_resolution w3s 5 ⟨1, 3, false⟩
    [Resolution.rcancel, Resolution.rconfirm, Resolution.rexpire]
    ⟨by decide, by decide⟩ rfl rfl (List.Perm.refl _)

end StoreServer
